import Mathlib

/-!
Verification of the GeekCode core against its specification.

This file gives a shallow embedding, in Lean 4, of the core of the GeekCode
repository (`geekcode/core/coding_loop.py`, `geekcode/core/cache.py`,
`geekcode/core/agent.py`, `geekcode/state/engine.py`) and proves or refutes
the frozen spec claims about it.

Modelling conventions:
* Python strings are modelled as Lean `String` / `List Char`.
* The filesystem seen by edit application is a finite map from path to file
  content, modelled as an association list.
* Wall-clock timestamps are naturals (seconds); `datetime` subtraction of a
  not-later time is truncated at zero, matching the boolean outcome of the
  Python comparisons involved.
* Fallible operations return `Except`/`Option`; an uncaught Python exception
  is an `Except.error`.
* Effectful collaborators (the completion provider, the test subprocess) are
  injected as explicit parameters, mirroring their role as external
  collaborators in the source.
-/

namespace GeekCode

/-! ## Basic string machinery (Python `str` operations used by the core) -/

/-- Python `\s` whitespace on ASCII text. -/
def isSpace (c : Char) : Bool :=
  c = ' ' || c = '\t' || c = '\n' || c = '\r' || c = Char.ofNat 11 || c = Char.ofNat 12

/-- Match a literal: if `lit` is a prefix of `s`, return the remainder. -/
def matchLit : List Char → List Char → Option (List Char)
  | [], s => some s
  | _ :: _, [] => none
  | c :: cs, d :: ds => if c = d then matchLit cs ds else none

/-- Python `old in s` (substring containment; the empty string is contained
everywhere, as in Python). -/
def containsSub (old : List Char) : List Char → Bool
  | [] => (matchLit old []).isSome
  | c :: t =>
    match matchLit old (c :: t) with
    | some _ => true
    | none => containsSub old t

/-- Python `s.replace(old, new, 1)`: replace the first occurrence of `old`
in `s` by `nw`; if `old` does not occur, return `s` unchanged.  As in
Python, an empty `old` matches at position 0. -/
def replaceFirst (old nw : List Char) : List Char → List Char
  | [] =>
    match matchLit old [] with
    | some rest => nw ++ rest
    | none => []
  | c :: t =>
    match matchLit old (c :: t) with
    | some rest => nw ++ rest
    | none => c :: replaceFirst old nw t

theorem matchLit_eq_some_iff (old s r : List Char) :
    matchLit old s = some r ↔ s = old ++ r := by
  induction old generalizing s with
  | nil => simp [matchLit]
  | cons c cs ih =>
    cases s with
    | nil => simp [matchLit]
    | cons d ds =>
      by_cases h : c = d
      · subst h
        simp [matchLit, ih]
      · simp only [matchLit, if_neg h, List.cons_append]
        constructor
        · intro h'; exact Option.noConfusion h'
        · intro h'
          injection h' with h1 _
          exact absurd h1.symm h

theorem matchLit_append (old suf : List Char) :
    matchLit old (old ++ suf) = some suf := by
  rw [matchLit_eq_some_iff]

theorem containsSub_cases (old : List Char) (s : List Char) :
    containsSub old s =
      match matchLit old s with
      | some _ => true
      | none =>
        match s with
        | [] => false
        | _ :: t => containsSub old t := by
  cases s with
  | nil =>
    show (matchLit old []).isSome = _
    cases h : matchLit old [] <;> simp [h]
  | cons c t => rfl

theorem containsSub_of_split (old pre suf : List Char) :
    containsSub old (pre ++ old ++ suf) = true := by
  induction pre with
  | nil =>
    rw [containsSub_cases]
    simp [matchLit_append]
  | cons c t ih =>
    rw [containsSub_cases]
    cases h : matchLit old (c :: t ++ old ++ suf) with
    | some r => rfl
    | none => simpa using ih

theorem replaceFirst_of_matchLit (old nw s r : List Char)
    (h : matchLit old s = some r) : replaceFirst old nw s = nw ++ r := by
  cases s with
  | nil => simp [replaceFirst, h]
  | cons c t => simp [replaceFirst, h]

/-- `replaceFirst` replaces exactly the first occurrence: if `s` splits as
`pre ++ old ++ suf` and no occurrence of `old` starts strictly earlier than
`pre.length`, then the replacement is `pre ++ nw ++ suf`. -/
theorem replaceFirst_first_occ (old nw pre suf : List Char)
    (hfirst : ∀ pre' suf',
      pre ++ old ++ suf = pre' ++ old ++ suf' → pre.length ≤ pre'.length) :
    replaceFirst old nw (pre ++ old ++ suf) = pre ++ nw ++ suf := by
  induction pre with
  | nil =>
    simp only [List.nil_append] at *
    exact replaceFirst_of_matchLit old nw _ suf (matchLit_append old suf)
  | cons c t ih =>
    have hsplit : (c :: t) ++ old ++ suf = c :: (t ++ old ++ suf) := by simp
    rw [hsplit, replaceFirst]
    cases h : matchLit old (c :: (t ++ old ++ suf)) with
    | some r =>
      exfalso
      rw [matchLit_eq_some_iff] at h
      have := hfirst [] r (by simpa using h)
      simp at this
    | none =>
      have heq : c :: (t ++ old ++ suf) = (c :: t) ++ nw ++ suf ↔
          t ++ old ++ suf = t ++ nw ++ suf := by simp
      simp only [List.cons_append]
      congr 1
      have hfirst' : ∀ pre' suf',
          t ++ old ++ suf = pre' ++ old ++ suf' → t.length ≤ pre'.length := by
        intro pre' suf' hs
        have := hfirst (c :: pre') suf' (by simp [hs])
        simpa using this
      simpa using ih hfirst'

/-! ## Data model: edits and their application (`coding_loop.py`) -/

/-- `Edit` dataclass from `coding_loop.py`: a single file edit or creation. -/
structure Edit where
  file_path : String
  old_content : String
  new_content : String
  is_create : Bool := false
deriving DecidableEq, Repr

/-- One element of the `applied` list built by `CodingLoop._apply_edits`:
the dict `{file, action, applied, error?}`. -/
structure AppliedEdit where
  file : String
  action : String
  applied : Bool
  error : Option String := none
deriving DecidableEq, Repr

/-- The workspace filesystem visible to edit application, as a finite map
from (relative) path to file content. -/
abbrev Fs : Type := List (String × String)

/-- Read a file (`path.exists()` / `path.read_text()`). -/
def getFile : Fs → String → Option String
  | [], _ => none
  | (p, v) :: t, q => if p = q then some v else getFile t q

/-- Write a file (`path.write_text`), creating it if absent. -/
def setFile : Fs → String → String → Fs
  | [], q, w => [(q, w)]
  | (p, v) :: t, q, w => if p = q then (q, w) :: t else (p, v) :: setFile t q w

theorem getFile_setFile_self (fs : Fs) (p w : String) :
    getFile (setFile fs p w) p = some w := by
  induction fs with
  | nil => simp [getFile, setFile]
  | cons h t ih =>
    obtain ⟨p', v⟩ := h
    by_cases hp : p' = p <;> simp [getFile, setFile, hp, ih]

theorem getFile_setFile_other (fs : Fs) (p q w : String) (hne : q ≠ p) :
    getFile (setFile fs p w) q = getFile fs q := by
  have hne' : ¬ p = q := fun h => hne h.symm
  induction fs with
  | nil => simp [getFile, setFile, hne']
  | cons hd t ih =>
    obtain ⟨p', v⟩ := hd
    by_cases hp : p' = p
    · subst hp
      simp [getFile, setFile, hne']
    · simp [getFile, setFile, hp, ih]

namespace CodingLoop

/-- `CodingLoop._apply_edits`: apply parsed edits to the filesystem in list
order, recording one `AppliedEdit` per edit.  A creation writes the full
content; a modification requires the file to exist and the exact
`old_content` substring to be present, in which case the first occurrence is
replaced; otherwise a non-fatal per-edit failure is recorded and processing
continues with the remaining edits.  (The `except` clause that catches OS
errors around each edit is not modelled: the modelled filesystem operations
do not fail.) -/
def applyEdits : List Edit → Fs → List AppliedEdit × Fs
  | [], fs => ([], fs)
  | e :: rest, fs =>
    if e.is_create then
      let fs' := setFile fs e.file_path e.new_content
      let out := applyEdits rest fs'
      (⟨e.file_path, "create", true, none⟩ :: out.1, out.2)
    else
      match getFile fs e.file_path with
      | none =>
        let out := applyEdits rest fs
        (⟨e.file_path, "edit", false, some "file not found"⟩ :: out.1, out.2)
      | some content =>
        if containsSub e.old_content.data content.data then
          let fs' := setFile fs e.file_path
            (String.mk (replaceFirst e.old_content.data e.new_content.data content.data))
          let out := applyEdits rest fs'
          (⟨e.file_path, "edit", true, none⟩ :: out.1, out.2)
        else
          let out := applyEdits rest fs
          (⟨e.file_path, "edit", false, some "old content not found"⟩ :: out.1, out.2)

end CodingLoop

namespace CodingLoop

/-! ## Edit-block parsing (`CodingLoop._parse_edits`)

The source parses a response with two `re.finditer` passes:

* `<<<EDIT\s+file="([^"]+)">>>\s*<<<OLD>>>\s*\n(.*?)\n\s*<<<NEW>>>\s*\n(.*?)\n\s*<<<END>>>`
* `<<<CREATE\s+file="([^"]+)">>>\s*\n(.*?)\n\s*<<<END>>>`

both with `re.DOTALL`, appending all EDIT matches and then all CREATE
matches.  The model below implements these two patterns directly as
backtracking scanners over `List Char`, exploring alternatives in the same
order as the regex engine: greedy `\s*` longest-first, lazy `(.*?)`
shortest-first, later choice points exhausted before earlier ones, and
non-overlapping matches found left to right. -/

/-- `\s+` followed by a literal that starts with a non-space character:
greedy whitespace then the literal (no backtracking is possible since the
literal head is not whitespace). -/
def wsPlusLit (lit : List Char) : List Char → Option (List Char)
  | [] => none
  | c :: t => if isSpace c then matchLit lit (t.dropWhile isSpace) else none

/-- `\s*` followed by a literal that starts with a non-space character. -/
def wsStarLit (lit : List Char) (s : List Char) : Option (List Char) :=
  matchLit lit (s.dropWhile isSpace)

/-- `([^"]+)">>>`: a nonempty run of non-quote characters (greedy, no
backtracking possible), the closing quote, and `>>>`. -/
def fileAttr (s : List Char) : Option (List Char × List Char) :=
  let name := s.takeWhile (fun c => c != '"')
  if name.isEmpty then none
  else (matchLit ("\">>>".data) (s.drop name.length)).map (fun rest => (name, rest))

/-- Indices of newline characters in a list, ascending. -/
def nlPositionsAsc : List Char → List Nat
  | [] => []
  | c :: t =>
    (if c = '\n' then [0] else []) ++ (nlPositionsAsc t).map (· + 1)

/-- Alternatives for matching `\s*\n` at the head of `s`, in the order a
backtracking greedy `\s*` explores them: the whitespace run may end at any
of its newlines, longest consumption first.  Each alternative is the
remainder of `s` after the consumed part. -/
def nlSuffixAlts (s : List Char) : List (List Char) :=
  ((nlPositionsAsc (s.takeWhile isSpace)).reverse).map (fun j => s.drop (j + 1))

/-- Alternatives for a lazy `(.*?)` followed by `\n\s*lit` (with `lit`
starting with a non-space character): all splits `(content, rest)` such
that `content` is followed by a newline, optional whitespace and `lit`,
shortest content first. -/
def lazyAlts (lit : List Char) : List Char → List (List Char × List Char)
  | [] => []
  | c :: t =>
    (if c = '\n' then
      match matchLit lit (t.dropWhile isSpace) with
      | some rest => [(([] : List Char), rest)]
      | none => []
    else []) ++ (lazyAlts lit t).map (fun pr => (c :: pr.1, pr.2))

/-- All ways the EDIT pattern can match at the head of `s`, in regex
backtracking order; each candidate is `((file, old, new), rest)`. -/
def editCands (s : List Char) : List ((List Char × List Char × List Char) × List Char) :=
  ((matchLit ("<<<EDIT".data) s).toList.flatMap fun s1 =>
    (wsPlusLit ("file=\"".data) s1).toList.flatMap fun s2 =>
    (fileAttr s2).toList.flatMap fun pr =>
    (wsStarLit ("<<<OLD>>>".data) pr.2).toList.flatMap fun s3 =>
    (nlSuffixAlts s3).flatMap fun s4 =>
    (lazyAlts ("<<<NEW>>>".data) s4).flatMap fun prOld =>
    (nlSuffixAlts prOld.2).flatMap fun s5 =>
    (lazyAlts ("<<<END>>>".data) s5).map fun prNew =>
      ((pr.1, prOld.1, prNew.1), prNew.2))

/-- All ways the CREATE pattern can match at the head of `s`; each candidate
is `((file, content), rest)`. -/
def createCands (s : List Char) : List ((List Char × List Char) × List Char) :=
  ((matchLit ("<<<CREATE".data) s).toList.flatMap fun s1 =>
    (wsPlusLit ("file=\"".data) s1).toList.flatMap fun s2 =>
    (fileAttr s2).toList.flatMap fun pr =>
    (nlSuffixAlts pr.2).flatMap fun s3 =>
    (lazyAlts ("<<<END>>>".data) s3).map fun prC =>
      ((pr.1, prC.1), prC.2))

/-- The EDIT-pattern match attempt at the head of `s` (first candidate in
backtracking order, as the regex engine returns). -/
def matchEditAt (s : List Char) : Option (Edit × List Char) :=
  (editCands s).head?.map fun x =>
    (⟨String.mk x.1.1, String.mk x.1.2.1, String.mk x.1.2.2, false⟩, x.2)

/-- The CREATE-pattern match attempt at the head of `s`. -/
def matchCreateAt (s : List Char) : Option (Edit × List Char) :=
  (createCands s).head?.map fun x =>
    (⟨String.mk x.1.1, "", String.mk x.1.2, true⟩, x.2)

/-- `re.finditer`: non-overlapping matches scanning left to right, each
search resuming after the previous match. `fuel` only bounds the recursion;
`s.length` is always enough since a match consumes at least one character. -/
def scanAll (step : List Char → Option (Edit × List Char)) : Nat → List Char → List Edit
  | 0, _ => []
  | fuel + 1, s =>
    match step s with
    | some (e, rest) => e :: scanAll step fuel rest
    | none =>
      match s with
      | [] => []
      | _ :: t => scanAll step fuel t

/-- `CodingLoop._parse_edits`: all EDIT-block matches (in text order),
followed by all CREATE-block matches (in text order). -/
def parseEdits (response : String) : List Edit :=
  scanAll matchEditAt response.data.length response.data ++
    scanAll matchCreateAt response.data.length response.data

theorem scanAll_forall {P : Edit → Prop}
    (step : List Char → Option (Edit × List Char))
    (hstep : ∀ s e rest, step s = some (e, rest) → P e) :
    ∀ fuel s, ∀ e ∈ scanAll step fuel s, P e := by
  intro fuel
  induction fuel with
  | zero => intro s e he; simp [scanAll] at he
  | succ n ih =>
    intro s e he
    cases h : step s with
    | some pr =>
      obtain ⟨e1, rest⟩ := pr
      simp only [scanAll, h] at he
      rcases List.mem_cons.mp he with he | he
      · exact he ▸ hstep s e1 rest h
      · exact ih rest e he
    | none =>
      cases s with
      | nil => simp [scanAll, h] at he
      | cons c t =>
        simp only [scanAll, h] at he
        exact ih t e he

theorem matchEditAt_not_create (s : List Char) (e : Edit) (rest : List Char)
    (h : matchEditAt s = some (e, rest)) : e.is_create = false := by
  unfold matchEditAt at h
  cases hc : (editCands s).head? with
  | none => rw [hc] at h; exact Option.noConfusion h
  | some x =>
    rw [hc] at h
    injection h with h1
    have h2 : e = ⟨String.mk x.1.1, String.mk x.1.2.1, String.mk x.1.2.2, false⟩ := by
      simpa using (congrArg Prod.fst h1).symm
    rw [h2]

theorem matchCreateAt_is_create (s : List Char) (e : Edit) (rest : List Char)
    (h : matchCreateAt s = some (e, rest)) : e.is_create = true := by
  unfold matchCreateAt at h
  cases hc : (createCands s).head? with
  | none => rw [hc] at h; exact Option.noConfusion h
  | some x =>
    rw [hc] at h
    injection h with h1
    have h2 : e = ⟨String.mk x.1.1, "", String.mk x.1.2, true⟩ := by
      simpa using (congrArg Prod.fst h1).symm
    rw [h2]

end CodingLoop

namespace CodingLoop

/-! ## The edit-test loop driver (`CodingLoop.run` / `CodingLoop.resume`)

The loop driver is modelled faithfully; the body of a single iteration
(`CodingLoop._iterate`: read files, build the prompt, call the completion
provider, parse and apply edits, detect and run the test command) is
injected as `LoopEnv.step`, an effectful collaborator acting on an abstract
world state `σ`.  `step` returning `none` models the one uncaught exception
inside `_iterate`: a completion-provider/transport failure, which aborts the
whole run (file reads, edit application and the test subprocess all catch
their own exceptions).  `_iterate` itself contributes the `iteration` field
of the produced `IterationResult`, which the model keeps. -/

/-- What one `_iterate` call produces, minus the iteration number. -/
structure StepOut where
  edits_applied : List AppliedEdit
  test_command : Option String
  test_passed : Bool
  test_output : String
  tokens_used : Nat
deriving Repr

/-- `IterationResult` dataclass. -/
structure IterationResult where
  iteration : Nat
  edits_applied : List AppliedEdit
  test_command : Option String
  test_passed : Bool
  test_output : String
  tokens_used : Nat
deriving DecidableEq, Repr

/-- One entry of the `iterations` list persisted in the loop checkpoint
(`{number, edits, test_passed, test_output[:500], tokens}`). -/
structure IterRecord where
  number : Nat
  edits : List AppliedEdit
  test_passed : Bool
  test_output : String
  tokens : Nat
deriving DecidableEq, Repr

/-- The loop checkpoint written to `.geekcode/loop/state.yaml`.  Timestamp
fields (`started_at`/`updated_at`/`completed_at`) are presentation-only and
not modelled. -/
structure LoopCheckpoint where
  task : String
  files : List String
  iteration : Nat
  max_iterations : Nat
  test_command : Option String
  iterations : List IterRecord
  status : String
  total_tokens : Option Nat := none
deriving DecidableEq, Repr

/-- The injected effectful iteration body, plus the test command detected
once at the start of `run` (`_detect_test_command`, a pure probe of the
workspace at that moment). -/
structure LoopEnv (σ : Type) where
  step : Nat → String → σ → Option (StepOut × σ)
  detect0 : Option String

/-- Summarise an `IterationResult` into its checkpoint record
(`test_output` truncated to 500 characters). -/
def summarizeIter (r : IterationResult) : IterRecord :=
  ⟨r.iteration, r.edits_applied, r.test_passed, r.test_output.take 500, r.tokens_used⟩

/-- The checkpoint dict written by `_checkpoint` calls. -/
def mkCk (task : String) (files : List String) (iter maxIter : Nat)
    (tc : Option String) (iters : List IterationResult) (status : String) :
    LoopCheckpoint :=
  ⟨task, files, iter, maxIter, tc, iters.map summarizeIter, status, none⟩

/-- The `for i in range(...)` loop shared by `run` and `resume`: run
iteration `i`, append the result, overwrite the checkpoint (status
`completed` if this iteration passed, else `running`), break on pass.  A
`step` failure (uncaught provider exception) aborts, leaving the last
written checkpoint in place. -/
def loopGo {σ : Type} (env : LoopEnv σ) (task : String) (files : List String)
    (maxIter : Nat) (tc : Option String) :
    List Nat → List IterationResult → String → Option LoopCheckpoint → σ →
      Except String (List IterationResult) × Option LoopCheckpoint × σ
  | [], acc, _, ck, s => (.ok acc, ck, s)
  | i :: rest, acc, prev, ck, s =>
    match env.step i prev s with
    | none => (.error "provider error", ck, s)
    | some (out, s') =>
      let r : IterationResult :=
        ⟨i, out.edits_applied, out.test_command, out.test_passed, out.test_output, out.tokens_used⟩
      let acc' := acc ++ [r]
      let ck' := some (mkCk task files i maxIter tc acc'
        (if out.test_passed then "completed" else "running"))
      if out.test_passed then (.ok acc', ck', s')
      else loopGo env task files maxIter tc rest acc' out.test_output ck' s'

/-- `LoopResult` dataclass. -/
structure LoopResult where
  task : String
  iterations : List IterationResult
  total_tokens : Nat
  success : Bool
  final_output : String
deriving DecidableEq, Repr

/-- `iterations[-1].test_passed if iterations else False`. -/
def lastPassed (iters : List IterationResult) : Bool :=
  match iters.getLast? with
  | some r => r.test_passed
  | none => false

def sumTokens (iters : List IterationResult) : Nat :=
  (iters.map (fun r => r.tokens_used)).sum

/-- Digit grouping of Python `format(n, ",")`, on the reversed digit list.
`fuel` only bounds the recursion; `ds.length` is always enough since each
step drops three characters. -/
def commafyAux : Nat → List Char → List Char
  | 0, ds => ds
  | fuel + 1, ds =>
    if ds.length ≤ 3 then ds
    else ds.take 3 ++ ',' :: commafyAux fuel (ds.drop 3)

/-- Python `f"{n:,}"` for a natural number. -/
def commafy (n : Nat) : String :=
  String.mk ((commafyAux (toString n).data.length (toString n).data.reverse).reverse)

/-- `CodingLoop._build_summary` (the `task` argument is unused in the
source as well). -/
def buildSummary (_task : String) (iterations : List IterationResult)
    (test_command : Option String) (success : Bool) : String :=
  let head :=
    if success then
      "**Task completed** in " ++ toString iterations.length ++ " iteration(s)."
    else
      "**Task incomplete** after " ++ toString iterations.length ++
        " iteration(s). Tests still failing."
  let totalEdits := (iterations.map (fun it => it.edits_applied.length)).sum
  let totalTokens := sumTokens iterations
  let stats :=
    ["- **Edits applied**: " ++ toString totalEdits,
     "- **Tokens used**: " ++ commafy totalTokens] ++
    (match test_command with
     | some cmd => ["- **Test command**: `" ++ cmd ++ "`"]
     | none => [])
  let perIter := iterations.map (fun it =>
    "**Iteration " ++ toString it.iteration ++ "**: " ++
      (if it.test_passed then "PASS" else "FAIL") ++
      " (" ++ toString it.edits_applied.length ++ " edits, " ++
      commafy it.tokens_used ++ " tokens)")
  let tail :=
    if success then []
    else
      match iterations.getLast? with
      | some last =>
        if last.test_output ≠ "" then
          ["\n**Last test output:**\n```\n" ++ last.test_output.take 1000 ++ "\n```"]
        else []
      | none => []
  String.intercalate "\n" ([head, ""] ++ stats ++ [""] ++ perIter ++ tail)

/-- `CodingLoop.run`: write the initial checkpoint (iteration 0, status
`running`), run `for i in range(1, max_iterations + 1)` with break on pass,
then write the final checkpoint with terminal status `completed`/`failed`.
Returns (result-or-uncaught-exception, persisted checkpoint, world). -/
def run {σ : Type} (env : LoopEnv σ) (task : String) (files : List String)
    (maxIter : Nat) (s : σ) :
    Except String LoopResult × Option LoopCheckpoint × σ :=
  let tc := env.detect0
  let ck0 := some (mkCk task files 0 maxIter tc [] "running")
  match loopGo env task files maxIter tc (List.range' 1 maxIter) [] "" ck0 s with
  | (.error e, ck, s') => (.error e, ck, s')
  | (.ok iters, _, s') =>
    let success := lastPassed iters
    let total := sumTokens iters
    let fo := buildSummary task iters tc success
    let ckF := some
      { mkCk task files iters.length maxIter tc iters
          (if success then "completed" else "failed") with
        total_tokens := some total }
    (.ok ⟨task, iters, total, success, fo⟩, ckF, s')

/-- Rebuild an `IterationResult` from its checkpoint record (as `resume`
does; `test_command` is taken from the checkpoint's top-level field). -/
def reconstructIter (tc : Option String) (it : IterRecord) : IterationResult :=
  ⟨it.number, it.edits, tc, it.test_passed, it.test_output, it.tokens⟩

/-- `CodingLoop.resume`: reload the checkpoint (`ck?`; a missing or
unreadable checkpoint is `none`), refuse unless status is `running`,
rebuild the iteration history, and continue from `iteration + 1` with the
same loop body.  Note: unlike `run`, `resume` writes no final checkpoint
after the loop. -/
def resume {σ : Type} (env : LoopEnv σ) (ck? : Option LoopCheckpoint) (s : σ) :
    Option (Except String LoopResult × Option LoopCheckpoint × σ) :=
  match ck? with
  | none => none
  | some ck =>
    if ck.status ≠ "running" then none
    else
      let iters0 := ck.iterations.map (reconstructIter ck.test_command)
      let prev :=
        match iters0.getLast? with
        | some r => r.test_output
        | none => ""
      match loopGo env ck.task ck.files ck.max_iterations ck.test_command
          (List.range' (ck.iteration + 1) (ck.max_iterations - ck.iteration))
          iters0 prev (some ck) s with
      | (.error e, ck', s') => some (.error e, ck', s')
      | (.ok iters, ck', s') =>
        let success := lastPassed iters
        some (.ok ⟨ck.task, iters, sumTokens iters, success,
          buildSummary ck.task iters ck.test_command success⟩, ck', s')

end CodingLoop

/-! ## The response cache (`cache.py` `CacheEngine`) -/

/-- Outcome of parsing the `cached_at` ISO-timestamp string:
`.ok t` for a string `datetime.fromisoformat` accepts (as seconds since the
epoch), `.error ()` for one it rejects (raising `ValueError`). -/
def TimeParse : Type := Except Unit Nat

/-- The fields of a well-formed (mapping) cache record, each optional as in
`dict.get`. -/
structure CacheData where
  cached_at : Option TimeParse
  response : Option String
  tokens_estimate : Option Nat := none

/-- What `yaml.safe_load` yields for a persisted cache record file:
`malformed` — the YAML itself is invalid and `safe_load` raises;
`parsedFalsy` — the file loads as `None`/empty (falsy);
`parsedNonDict` — the file loads as a non-mapping (e.g. a list), on which
`.get` raises `AttributeError`; `parsedData` — a mapping. -/
inductive CacheRaw where
  | malformed
  | parsedFalsy
  | parsedNonDict
  | parsedData (d : CacheData)

namespace CacheEngine

/-- In-memory view of the cache `responses/` directory (one record file per
task id, modelled as a partial map) plus the `meta.yaml` counters. -/
structure CacheState where
  responses : String → Option CacheRaw
  metaHits : Nat := 0
  metaSets : Nat := 0
  metaTokensSaved : Nat := 0

/-- Write a record file (full-record overwrite). -/
def setEntry (f : String → Option CacheRaw) (k : String) (v : CacheRaw) :
    String → Option CacheRaw :=
  fun q => if q = k then some v else f q

/-- `cache_file.unlink()`. -/
def removeEntry (f : String → Option CacheRaw) (k : String) :
    String → Option CacheRaw :=
  fun q => if q = k then none else f q

/-- The epoch-time value of the default timestamp string `"2000-01-01"`
used when `cached_at` is missing (it parses successfully and is far in
the past; `0` in this model's clock). -/
def defaultCachedAt : TimeParse := .ok 0

/-- `CacheEngine.get(task_id)` at wall-clock `now` with TTL `ttl` (both in
seconds; `ttl = ttl_hours * 3600`).  Returns the payload (or `none` for a
miss) and the updated cache state; `Except.error` models an uncaught Python
exception escaping to the caller. -/
def get (now ttl : Nat) (st : CacheState) (task_id : String) :
    Except String (Option String) × CacheState :=
  match st.responses task_id with
  | none => (.ok none, st)
  | some .malformed => (.error "yaml.YAMLError from yaml.safe_load", st)
  | some .parsedFalsy => (.ok none, st)
  | some .parsedNonDict => (.error "AttributeError: .get on non-mapping", st)
  | some (.parsedData d) =>
    match d.cached_at.getD defaultCachedAt with
    | .error _ => (.error "ValueError from datetime.fromisoformat", st)
    | .ok t =>
      if now - t > ttl then
        (.ok none, { st with responses := removeEntry st.responses task_id })
      else
        (.ok d.response,
          { st with metaHits := st.metaHits + 1,
                    metaTokensSaved := st.metaTokensSaved + 500 })

/-- `CacheEngine.set(task_id, response)` at wall-clock `now`. -/
def set (now : Nat) (st : CacheState) (task_id : String) (response : String) :
    CacheState :=
  { st with
    responses := setEntry st.responses task_id
      (.parsedData ⟨some (.ok now), some response, some (response.length / 4)⟩),
    metaSets := st.metaSets + 1 }

theorem setEntry_self (f : String → Option CacheRaw) (k : String) (v : CacheRaw) :
    setEntry f k v k = some v := by
  simp [setEntry]

theorem removeEntry_self (f : String → Option CacheRaw) (k : String) :
    removeEntry f k k = none := by
  simp [removeEntry]

end CacheEngine

namespace Agent

/-- `Agent._read_cache(task_id)`: like `CacheEngine.get` but with slightly
different handling — a falsy loaded document is replaced by `{}` and
processing continues; `cached_at` defaults to `""`, and a missing/empty
`cached_at` skips the TTL check entirely.  The hit counter
(`_increment_cache_hits`) fires whenever the function reaches its final
`return`, even when the stored payload is missing or empty.  Returns
(result-or-exception, whether the hit counters were incremented). -/
def readCache (now : Nat) (record : Option CacheRaw) :
    Except String (Option String) × Bool :=
  match record with
  | none => (.ok none, false)
  | some .malformed => (.error "yaml.YAMLError from yaml.safe_load", false)
  | some .parsedFalsy => (.ok none, true)
  | some .parsedNonDict => (.error "AttributeError: .get on non-mapping", false)
  | some (.parsedData d) =>
    match d.cached_at with
    | none => (.ok d.response, true)
    | some (.error _) => (.error "ValueError from datetime.fromisoformat", false)
    | some (.ok t) =>
      if now - t > 24 * 3600 then (.ok none, false)
      else (.ok d.response, true)

end Agent

/-! ## The checkpoint store cleanup (`state/engine.py` `StateEngine.cleanup`) -/

/-- One persisted state file in `.geekcode/state/`: its name, filesystem
modification time, and the `updated_at` timestamp parsed from its YAML
contents (`none` when the record is corrupt — unreadable YAML, missing key
or unparsable timestamp — in which case the age pass's `except` clause
skips it).  Times are seconds. -/
structure StateFile where
  name : String
  mtime : Nat
  updated_at : Option Nat
deriving DecidableEq, Repr

namespace StateEngine

/-- Whether the age pass keeps a file: it deletes a parseable record with
`(now - updated_at).days > max_age_days` (Python `timedelta.days`, i.e.
whole days) and keeps everything else. -/
def ageKeeps (now maxAgeDays : Nat) (f : StateFile) : Bool :=
  match f.updated_at with
  | some t => !((now - t) / 86400 > maxAgeDays)
  | none => true

/-- Stable insertion into a list sorted ascending by `mtime`. -/
def insertByMtime (f : StateFile) : List StateFile → List StateFile
  | [] => [f]
  | g :: t => if f.mtime ≤ g.mtime then f :: g :: t else g :: insertByMtime f t

/-- `remaining.sort(key=lambda p: p.stat().st_mtime)`: stable ascending
sort by modification time. -/
def sortByMtime : List StateFile → List StateFile
  | [] => []
  | f :: t => insertByMtime f (sortByMtime t)

theorem length_insertByMtime (f : StateFile) (l : List StateFile) :
    (insertByMtime f l).length = l.length + 1 := by
  induction l with
  | nil => simp [insertByMtime]
  | cons g t ih =>
    by_cases h : f.mtime ≤ g.mtime <;> simp [insertByMtime, h, ih]

theorem length_sortByMtime (l : List StateFile) :
    (sortByMtime l).length = l.length := by
  induction l with
  | nil => simp [sortByMtime]
  | cons f t ih => simp [sortByMtime, length_insertByMtime, ih]

theorem mem_insertByMtime (x f : StateFile) (l : List StateFile) :
    x ∈ insertByMtime f l → x = f ∨ x ∈ l := by
  induction l with
  | nil => simp [insertByMtime]
  | cons g t ih =>
    by_cases h : f.mtime ≤ g.mtime
    · simp only [insertByMtime, if_pos h, List.mem_cons]
      tauto
    · simp only [insertByMtime, if_neg h, List.mem_cons]
      intro hx
      rcases hx with hx | hx
      · tauto
      · rcases ih hx with hx' | hx' <;> tauto

theorem mem_sortByMtime (x : StateFile) (l : List StateFile) :
    x ∈ sortByMtime l → x ∈ l := by
  induction l with
  | nil => simp [sortByMtime]
  | cons f t ih =>
    intro hx
    rcases mem_insertByMtime x f (sortByMtime t) hx with hx' | hx'
    · simp [hx']
    · simp [ih hx']

/-- `StateEngine.cleanup(max_age_days, max_count)`: delete parseable records
older than `max_age_days` (whole days), then, if more than `max_count`
files remain, delete the oldest excess by modification time via the slice
`remaining[:-max_count]`.  For `max_count = 0` that Python slice is empty
(`lst[:-0] == lst[:0] == []`), so the count pass deletes nothing.  Returns
(number of files deleted, surviving files). -/
def cleanup (now maxAgeDays maxCount : Nat) (files : List StateFile) :
    Nat × List StateFile :=
  let phase1 := files.filter (ageKeeps now maxAgeDays)
  let deleted1 := files.length - phase1.length
  if phase1.length > maxCount then
    let sorted := sortByMtime phase1
    let toDel := if maxCount = 0 then [] else sorted.take (sorted.length - maxCount)
    let survivors := if maxCount = 0 then phase1 else sorted.drop (sorted.length - maxCount)
    (deleted1 + toDel.length, survivors)
  else
    (deleted1, phase1)

end StateEngine

/-! ## Test subprocess handling (`CodingLoop._run_tests`) -/

/-- Outcome of the `subprocess.run` call: normal exit (with combined
stdout+stderr), timeout (`subprocess.TimeoutExpired`), or a launch
failure (any other exception). -/
inductive TestProcOutcome where
  | exited (code : Int) (output : String)
  | timedOut
  | launchError (msg : String)

/-- Head+tail truncation used by `_run_tests` (`output[:2500] + "\n...\n" +
output[-2500:]` when over 5000 characters). -/
def truncHeadTail (limit headN tailN : Nat) (s : String) : String :=
  if s.length > limit then
    s.take headN ++ "\n...\n" ++ s.drop (s.length - tailN)
  else s

namespace CodingLoop

/-- `CodingLoop._run_tests`: success iff exit code 0; a timeout or launch
failure is converted into a failing result with a message — never an
exception. -/
def runTests (timeout : Nat) (outcome : TestProcOutcome) : Bool × String :=
  match outcome with
  | .exited code output => (decide (code = 0), truncHeadTail 5000 2500 2500 output)
  | .timedOut => (false, "Tests timed out after " ++ toString timeout ++ "s")
  | .launchError e => (false, "Test execution error: " ++ e)

end CodingLoop

/-! ## The task orchestrator (`agent.py` `Agent.run`) -/

/-- `TaskResult` dataclass. -/
structure TaskResult where
  output : String
  task_id : String
  model : String
  tokens_used : Nat := 0
  tokens_saved : Nat := 0
  cached : Bool := false
  completed : Bool := true
  error : Option String := none
deriving DecidableEq, Repr

/-- A conversation message. -/
structure Msg where
  role : String
  content : String
deriving DecidableEq, Repr

/-- One entry of the daily history file (task and response preview
truncated to 200 characters on write). -/
structure HistEntry where
  task : String
  response_preview : String
  cached : Bool
deriving DecidableEq, Repr

/-- The fields of `.geekcode/state.yaml` that `Agent.run` reads or writes
(timestamps omitted). -/
structure TaskStateRec where
  status : String := "idle"
  current_task : Option String := none
  task_id : Option String := none
  last_result : Option String := none
  last_task_id : Option String := none
  error : Option String := none
deriving DecidableEq, Repr

/-- The persisted world the orchestrator mutates: state record,
conversation, cache writes (append log of `_write_cache` calls), history
entries, and the cache meta counters. -/
structure AgentWorld where
  stateRec : TaskStateRec
  conversation : List Msg
  cacheWrites : List (String × String)
  history : List HistEntry
  metaHits : Nat := 0
  metaTokensSaved : Nat := 0

/-- Outcome of the single `provider.complete` call on the
single-completion path: a response, an exception (class (e)), or
`KeyboardInterrupt` (class (f)). -/
inductive ProviderOutcome where
  | success (content : String) (model : String) (token_usage : Nat)
  | failure (msg : String)
  | interrupt

/-- An exception escaping `Agent.run`. -/
inductive AgentExn where
  | interrupt
  | exn (msg : String)
deriving DecidableEq, Repr

/-- The per-invocation environment of `Agent.run`: the computed task
fingerprint, the wall clock, the on-disk cache record for that fingerprint,
the configured model name, whether `files and is_coding_task(task)` holds,
the target files, the injected edit-loop collaborator and the provider
outcome.  Context building (`_build_context_from_files`) does not influence
any modelled output and is not represented. -/
structure AgentEnv (σ : Type) where
  taskId : String
  now : Nat
  cacheRecord : Option CacheRaw
  modelCfg : String
  codingPath : Bool
  files : List String
  loopEnv : CodingLoop.LoopEnv σ
  provider : ProviderOutcome

/-- `Agent._estimate_tokens`. -/
def estimateTokens (s : String) : Nat := s.length / 4

/-- A `_write_history` entry. -/
def mkHist (task response : String) (cached : Bool) : HistEntry :=
  ⟨task.take 200, response.take 200, cached⟩

/-- Python `lst[-n:]` used by `_write_conversation`. -/
def lastN (n : Nat) (l : List Msg) : List Msg := l.drop (l.length - n)

namespace Agent

/-- The continuation of `Agent.run` after the cache check has missed:
either the coding-loop path (no task-state writes; the result's
`completed` flag is the loop's success flag) or the single-completion path
(state `running` persisted, then provider call; on success everything is
persisted and status becomes `completed`; on `KeyboardInterrupt` status
`paused` is persisted and the interrupt re-raised; on any other exception
status `error` is persisted and a failed `TaskResult` is returned). -/
def runCore {σ : Type} (env : AgentEnv σ) (task : String) (w : AgentWorld)
    (s : σ) : Except AgentExn TaskResult × AgentWorld × σ :=
  if env.codingPath then
    match CodingLoop.run env.loopEnv task env.files 5 s with
    | (.error e, _, s') => (.error (.exn e), w, s')
    | (.ok lr, _, s') =>
      let w' := { w with history := w.history ++ [mkHist task lr.final_output false] }
      (.ok { output := lr.final_output, task_id := env.taskId,
             model := env.modelCfg, tokens_used := lr.total_tokens,
             completed := lr.success }, w', s')
  else
    let st1 := { w.stateRec with
      status := "running", current_task := some task,
      task_id := some env.taskId }
    let w1 := { w with stateRec := st1 }
    match env.provider with
    | .success content model tokens =>
      let conv := lastN 20 (w1.conversation ++ [⟨"user", task⟩, ⟨"assistant", content⟩])
      let st2 := { st1 with
        status := "completed",
        last_result := some (content.take 500),
        last_task_id := some env.taskId }
      let w2 := { w1 with
        conversation := conv,
        cacheWrites := w1.cacheWrites ++ [(env.taskId, content)],
        stateRec := st2,
        history := w1.history ++ [mkHist task content false] }
      (.ok { output := content, task_id := env.taskId, model := model,
             tokens_used := tokens, completed := true }, w2, s)
    | .interrupt =>
      (.error .interrupt, { w1 with stateRec := { st1 with status := "paused" } }, s)
    | .failure msg =>
      (.ok { output := "", task_id := env.taskId, model := env.modelCfg,
             completed := false, error := some msg },
        { w1 with stateRec := { st1 with status := "error", error := some msg } }, s)

/-- `Agent.run`: read state/config/conversation, compute the fingerprint,
check the cache (an exception from `_read_cache` propagates — it is outside
the `try` block), take the cache-hit branch only when the payload is truthy
(`if cached:`), otherwise continue with `runCore`.  The expired-entry
unlink performed by `_read_cache` acts on the record passed in `env` and is
not a modelled world effect. -/
def run {σ : Type} (env : AgentEnv σ) (task : String) (w : AgentWorld)
    (s : σ) : Except AgentExn TaskResult × AgentWorld × σ :=
  match readCache env.now env.cacheRecord with
  | (.error e, _) => (.error (.exn e), w, s)
  | (.ok r, hit) =>
    let w0 := if hit then
        { w with metaHits := w.metaHits + 1,
                 metaTokensSaved := w.metaTokensSaved + 500 }
      else w
    match r with
    | some payload =>
      if payload ≠ "" then
        (.ok { output := payload, task_id := env.taskId, model := env.modelCfg,
               tokens_used := 0, tokens_saved := estimateTokens (task ++ payload),
               cached := true },
          { w0 with history := w0.history ++ [mkHist task payload true] }, s)
      else runCore env task w0 s
    | none => runCore env task w0 s

end Agent

namespace CodingLoop

/-- Structure of a successful `loopGo` run: the accumulated history is a
prefix of the result; the new results are numbered by the supplied index
list in order; at most one result per index is produced; every non-final
new result failed its tests (the loop stops at the first pass); and if
every step fails its tests, one result per index is produced and all of
them failed. -/
theorem loopGo_ok_parts {σ : Type} (env : LoopEnv σ) (task : String)
    (files : List String) (maxIter : Nat) (tc : Option String) :
    ∀ (idxs : List Nat) (acc : List IterationResult) (prev : String)
      (ck : Option LoopCheckpoint) (s : σ) (res : List IterationResult)
      (ck' : Option LoopCheckpoint) (s' : σ),
      loopGo env task files maxIter tc idxs acc prev ck s = (.ok res, ck', s') →
      ∃ newRes,
        res = acc ++ newRes ∧
        newRes.map (fun r => r.iteration) = idxs.take newRes.length ∧
        newRes.length ≤ idxs.length ∧
        (∀ r ∈ newRes.dropLast, r.test_passed = false) ∧
        ((∀ i p s₀ out s₁, env.step i p s₀ = some (out, s₁) → out.test_passed = false) →
          newRes.length = idxs.length ∧ ∀ r ∈ newRes, r.test_passed = false) := by
  intro idxs
  induction idxs with
  | nil =>
    intro acc prev ck s res ck' s' h
    simp only [loopGo, Prod.mk.injEq, Except.ok.injEq] at h
    obtain ⟨h1, _, _⟩ := h
    exact ⟨[], by simp [h1.symm]⟩
  | cons i rest ih =>
    intro acc prev ck s res ck' s' h
    cases hstep : env.step i prev s with
    | none => simp [loopGo, hstep] at h
    | some pr =>
      obtain ⟨out, s₂⟩ := pr
      cases hout : out.test_passed with
      | true =>
        simp only [loopGo, hstep, hout, if_true, Prod.mk.injEq, Except.ok.injEq] at h
        obtain ⟨h1, _, _⟩ := h
        refine ⟨[⟨i, out.edits_applied, out.test_command, true,
          out.test_output, out.tokens_used⟩], h1.symm, by simp, by simp, by simp, ?_⟩
        intro hf
        exact absurd (hf i prev s out s₂ hstep) (by simp [hout])
      | false =>
        simp only [loopGo, hstep, hout, if_false, Bool.false_eq_true] at h
        obtain ⟨newRes₂, hres, hmap, hlen, hdrop, hfail⟩ :=
          ih _ _ _ _ _ _ _ h
        refine ⟨⟨i, out.edits_applied, out.test_command, false,
          out.test_output, out.tokens_used⟩ :: newRes₂, ?_, ?_, ?_, ?_, ?_⟩
        · rw [hres]; simp
        · simp only [List.map_cons, List.length_cons, List.take_succ_cons, hmap]
        · simp only [List.length_cons]; omega
        · cases newRes₂ with
          | nil => simp
          | cons x xs =>
            intro r hr
            rw [List.dropLast_cons₂] at hr
            rcases List.mem_cons.mp hr with hr | hr
            · rw [hr]
            · exact hdrop r hr
        · intro hf
          obtain ⟨hl, ha⟩ := hfail hf
          refine ⟨by simp [hl], ?_⟩
          intro r hr
          rcases List.mem_cons.mp hr with hr | hr
          · rw [hr]
          · exact ha r hr

/-- The checkpoint persisted when `loopGo` returns normally: either no
iteration ran and the stored checkpoint is untouched, or the last written
checkpoint holds the full history with status `completed` exactly when the
final iteration passed, and `running` otherwise. -/
theorem loopGo_ok_ck {σ : Type} (env : LoopEnv σ) (task : String)
    (files : List String) (maxIter : Nat) (tc : Option String) :
    ∀ (idxs : List Nat) (acc : List IterationResult) (prev : String)
      (ck : Option LoopCheckpoint) (s : σ) (res : List IterationResult)
      (ck' : Option LoopCheckpoint) (s' : σ),
      loopGo env task files maxIter tc idxs acc prev ck s = (.ok res, ck', s') →
      (idxs = [] ∧ res = acc ∧ ck' = ck) ∨
      (acc.length < res.length ∧ ∃ iLast,
        ck' = some (mkCk task files iLast maxIter tc res
          (if lastPassed res then "completed" else "running"))) := by
  intro idxs
  induction idxs with
  | nil =>
    intro acc prev ck s res ck' s' h
    simp only [loopGo, Prod.mk.injEq, Except.ok.injEq] at h
    exact Or.inl ⟨rfl, h.1.symm, h.2.1.symm⟩
  | cons i rest ih =>
    intro acc prev ck s res ck' s' h
    cases hstep : env.step i prev s with
    | none => simp [loopGo, hstep] at h
    | some pr =>
      obtain ⟨out, s₂⟩ := pr
      cases hout : out.test_passed with
      | true =>
        simp only [loopGo, hstep, hout, if_true, Prod.mk.injEq, Except.ok.injEq] at h
        obtain ⟨h1, h2, _⟩ := h
        subst h1
        subst h2
        refine Or.inr ⟨by simp, i, ?_⟩
        simp [lastPassed, List.getLast?_concat]
      | false =>
        simp only [loopGo, hstep, hout, if_false, Bool.false_eq_true] at h
        rcases ih _ _ _ _ _ _ _ h with ⟨_, h1, h2⟩ | ⟨h1, iL, h2⟩
        · refine Or.inr ⟨by rw [h1]; simp, i, ?_⟩
          rw [h1, h2]
          simp [lastPassed, List.getLast?_concat]
        · refine Or.inr ⟨?_, iL, h2⟩
          simp only [List.length_append, List.length_cons] at h1
          omega

/-- With a step function that always returns, `loopGo` returns normally. -/
theorem loopGo_isOk {σ : Type} (env : LoopEnv σ) (task : String)
    (files : List String) (maxIter : Nat) (tc : Option String)
    (hok : ∀ i p s, (env.step i p s).isSome) :
    ∀ (idxs : List Nat) (acc : List IterationResult) (prev : String)
      (ck : Option LoopCheckpoint) (s : σ),
      ∃ res ck' s',
        loopGo env task files maxIter tc idxs acc prev ck s = (.ok res, ck', s') := by
  intro idxs
  induction idxs with
  | nil =>
    intro acc prev ck s
    exact ⟨acc, ck, s, rfl⟩
  | cons i rest ih =>
    intro acc prev ck s
    obtain ⟨pr, hstep⟩ := Option.isSome_iff_exists.mp (hok i prev s)
    obtain ⟨out, s₂⟩ := pr
    by_cases hout : out.test_passed = true
    · refine ⟨acc ++ [⟨i, out.edits_applied, out.test_command, out.test_passed,
        out.test_output, out.tokens_used⟩],
        some (mkCk task files i maxIter tc
          (acc ++ [⟨i, out.edits_applied, out.test_command, out.test_passed,
            out.test_output, out.tokens_used⟩])
          (if out.test_passed then "completed" else "running")), s₂, ?_⟩
      simp only [loopGo, hstep]
      rw [if_pos hout]
    · obtain ⟨res, ck', s', hrec⟩ := ih
        (acc ++ [⟨i, out.edits_applied, out.test_command, out.test_passed,
          out.test_output, out.tokens_used⟩])
        out.test_output
        (some (mkCk task files i maxIter tc
          (acc ++ [⟨i, out.edits_applied, out.test_command, out.test_passed,
            out.test_output, out.tokens_used⟩])
          (if out.test_passed then "completed" else "running")))
        s₂
      refine ⟨res, ck', s', ?_⟩
      simp only [loopGo, hstep]
      rw [if_neg hout]
      exact hrec

end CodingLoop

namespace CodingLoop

theorem lastPassed_false_of_all (l : List IterationResult)
    (h : ∀ r ∈ l, r.test_passed = false) : lastPassed l = false := by
  cases hl : l.getLast? with
  | none => simp [lastPassed, hl]
  | some r =>
    obtain ⟨l', rfl⟩ := List.getLast?_eq_some_iff.mp hl
    simp [lastPassed, hl, h r (by simp)]

theorem lastPassed_iff (l : List IterationResult)
    (hdrop : ∀ r ∈ l.dropLast, r.test_passed = false) :
    lastPassed l = true ↔ ∃ r ∈ l, r.test_passed = true := by
  rcases List.eq_nil_or_concat' l with rfl | ⟨l', a, rfl⟩
  · simp [lastPassed]
  · have hlast : lastPassed (l' ++ [a]) = a.test_passed := by
      simp [lastPassed, List.getLast?_concat]
    rw [hlast]
    constructor
    · intro hp
      exact ⟨a, by simp, hp⟩
    · rintro ⟨r, hr, hp⟩
      rcases List.mem_append.mp hr with hr | hr
      · exact absurd hp (by
          rw [hdrop r (by rwa [List.dropLast_concat])]
          simp)
      · rcases List.mem_singleton.mp hr with rfl
        exact hp

end CodingLoop

/-- Claim C1: for every `max_iterations = N ≥ 1`, `CodingLoop.run` performs
at most `N` iterations and stops iterating immediately at the first
iteration whose test passes (every non-final iteration result failed); in
particular, against a test command that always fails it produces exactly
`N` `IterationResult`s and the final persisted checkpoint status is
`"failed"`. -/
theorem c1_loop_termination {σ : Type} (env : CodingLoop.LoopEnv σ)
    (task : String) (files : List String) (N : Nat) (s : σ)
    (hok : ∀ i p s₀, (env.step i p s₀).isSome) (_hN : 1 ≤ N) :
    (∀ lr ck' s', CodingLoop.run env task files N s = (.ok lr, ck', s') →
      lr.iterations.length ≤ N ∧
      ∀ r ∈ lr.iterations.dropLast, r.test_passed = false) ∧
    ((∀ i p s₀ out s₁, env.step i p s₀ = some (out, s₁) → out.test_passed = false) →
      ∃ lr ck s', CodingLoop.run env task files N s = (.ok lr, some ck, s') ∧
        lr.iterations.length = N ∧ ck.status = "failed") := by
  constructor
  · intro lr ck' s' h
    obtain ⟨⟨exc, ck₂, s₂⟩, hgo⟩ :
        ∃ tr, CodingLoop.loopGo env task files N env.detect0 (List.range' 1 N)
          [] "" (some (CodingLoop.mkCk task files 0 N env.detect0 [] "running")) s = tr :=
      ⟨_, rfl⟩
    cases exc with
    | error e => simp [CodingLoop.run, hgo] at h
    | ok res =>
      simp only [CodingLoop.run, hgo, Prod.mk.injEq, Except.ok.injEq] at h
      obtain ⟨h1, _, _⟩ := h
      obtain ⟨newRes, hres, _, hlen, hdrop, _⟩ :=
        CodingLoop.loopGo_ok_parts env task files N env.detect0 _ _ _ _ _ _ _ _ hgo
      rw [List.nil_append] at hres
      subst hres
      constructor
      · rw [← h1]
        simpa using hlen
      · rw [← h1]
        exact hdrop
  · intro hfail
    obtain ⟨res, ck₂, s₂, hgo⟩ :=
      CodingLoop.loopGo_isOk env task files N env.detect0 hok (List.range' 1 N)
        [] "" (some (CodingLoop.mkCk task files 0 N env.detect0 [] "running")) s
    obtain ⟨newRes, hres, _, _, _, hfa⟩ :=
      CodingLoop.loopGo_ok_parts env task files N env.detect0 _ _ _ _ _ _ _ _ hgo
    rw [List.nil_append] at hres
    subst hres
    obtain ⟨hlenN, hallfail⟩ := hfa hfail
    have hsucc : CodingLoop.lastPassed res = false :=
      CodingLoop.lastPassed_false_of_all res hallfail
    have hrun : CodingLoop.run env task files N s =
        (.ok ⟨task, res, CodingLoop.sumTokens res,
          CodingLoop.lastPassed res,
          CodingLoop.buildSummary task res env.detect0 (CodingLoop.lastPassed res)⟩,
         some { CodingLoop.mkCk task files res.length N env.detect0 res
             (if CodingLoop.lastPassed res then "completed" else "failed") with
           total_tokens := some (CodingLoop.sumTokens res) }, s₂) := by
      simp only [CodingLoop.run, hgo]
    refine ⟨_, _, _, hrun, by simpa using hlenN, ?_⟩
    simp [CodingLoop.mkCk, hsucc]

namespace CodingLoop

/-- Helper: with a running checkpoint and a total step function, `resume`
runs the shared loop body and returns its result without writing any
further (final) checkpoint. -/
theorem resume_running_eq {σ : Type} (env : LoopEnv σ) (ck : LoopCheckpoint)
    (s : σ) (hst : ck.status = "running")
    (hok : ∀ i p s₀, (env.step i p s₀).isSome) :
    ∃ res ck₂ s₂,
      loopGo env ck.task ck.files ck.max_iterations ck.test_command
        (List.range' (ck.iteration + 1) (ck.max_iterations - ck.iteration))
        (ck.iterations.map (reconstructIter ck.test_command))
        (match (ck.iterations.map (reconstructIter ck.test_command)).getLast? with
         | some r => r.test_output
         | none => "")
        (some ck) s = (.ok res, ck₂, s₂) ∧
      resume env (some ck) s =
        some (.ok ⟨ck.task, res, sumTokens res, lastPassed res,
          buildSummary ck.task res ck.test_command (lastPassed res)⟩, ck₂, s₂) := by
  obtain ⟨res, ck₂, s₂, hgo⟩ :=
    loopGo_isOk env ck.task ck.files ck.max_iterations ck.test_command hok
      (List.range' (ck.iteration + 1) (ck.max_iterations - ck.iteration))
      (ck.iterations.map (reconstructIter ck.test_command))
      (match (ck.iterations.map (reconstructIter ck.test_command)).getLast? with
       | some r => r.test_output
       | none => "")
      (some ck) s
  refine ⟨res, ck₂, s₂, hgo, ?_⟩
  have hne : ¬ (ck.status ≠ "running") := by simp [hst]
  simp only [resume, if_neg hne, hgo]

end CodingLoop

/-- `take` of an arithmetic range is the shorter range. -/
theorem take_range' (s : Nat) : ∀ (n m : Nat), m ≤ n →
    (List.range' s n).take m = List.range' s m := by
  intro n m
  induction m generalizing s n with
  | zero => intro _; simp
  | succ m ih =>
    intro hm
    cases n with
    | zero => omega
    | succ n =>
      rw [List.range'_succ, List.take_succ_cons, List.range'_succ]
      rw [ih (s + 1) n (by omega)]

/-- Claim C5: `CodingLoop.resume` refuses (returns `none`) whenever the
checkpoint is missing or its status is not `"running"`; for a running
checkpoint at iteration `k` it preserves all prior `IterationResult`s
unchanged at the front of the reconstructed history and numbers the new
iterations `k + 1, k + 2, …`. -/
theorem c5_resume_continuity {σ : Type} (env : CodingLoop.LoopEnv σ) :
    (∀ s : σ, CodingLoop.resume env none s = none) ∧
    (∀ (ck : CodingLoop.LoopCheckpoint) (s : σ), ck.status ≠ "running" →
      CodingLoop.resume env (some ck) s = none) ∧
    (∀ (ck : CodingLoop.LoopCheckpoint) (s : σ), ck.status = "running" →
      (∀ i p s₀, (env.step i p s₀).isSome) →
      ∃ lr ck' s',
        CodingLoop.resume env (some ck) s = some (.ok lr, ck', s') ∧
        ∃ newRes,
          lr.iterations =
            ck.iterations.map (CodingLoop.reconstructIter ck.test_command) ++ newRes ∧
          newRes.map (fun r => r.iteration) =
            List.range' (ck.iteration + 1) newRes.length) := by
  refine ⟨fun s => rfl, ?_, ?_⟩
  · intro ck s hst
    simp only [CodingLoop.resume, if_pos hst]
  · intro ck s hst hok
    obtain ⟨res, ck₂, s₂, hgo, hres⟩ :=
      CodingLoop.resume_running_eq env ck s hst hok
    obtain ⟨newRes, hsplit, hmap, hlen, _, _⟩ :=
      CodingLoop.loopGo_ok_parts env ck.task ck.files ck.max_iterations
        ck.test_command _ _ _ _ _ _ _ _ hgo
    refine ⟨_, _, _, hres, newRes, hsplit, ?_⟩
    rw [hmap]
    exact take_range' _ _ _ (by simpa using hlen)

/-! ## Concrete instances used by witnesses and counterexamples -/

/-- An iteration body whose detected test command always fails. -/
def stepAlwaysFail : Nat → String → Unit → Option (CodingLoop.StepOut × Unit) :=
  fun _ _ _ => some
    ({ edits_applied := [], test_command := some "python -m pytest",
       test_passed := false, test_output := "1 failed", tokens_used := 10 }, ())

def envAlwaysFail : CodingLoop.LoopEnv Unit :=
  ⟨stepAlwaysFail, some "python -m pytest"⟩

/-- An iteration body whose tests pass from iteration 2 onward. -/
def stepPassAt2 : Nat → String → Unit → Option (CodingLoop.StepOut × Unit) :=
  fun i _ _ => some
    ({ edits_applied := [], test_command := some "python -m pytest",
       test_passed := decide (2 ≤ i), test_output := "out", tokens_used := 10 }, ())

def envPassAt2 : CodingLoop.LoopEnv Unit :=
  ⟨stepPassAt2, some "python -m pytest"⟩

/-- A `running` checkpoint at iteration 0 of 1. -/
def ckRunning0 : CodingLoop.LoopCheckpoint :=
  { task := "fix the bug in app.py", files := ["app.py"], iteration := 0,
    max_iterations := 1, test_command := some "python -m pytest",
    iterations := [], status := "running" }

/-- Projection used to observe the checkpoint status `resume` leaves
persisted. -/
def resumeStatusOf {σ : Type}
    (o : Option (Except String CodingLoop.LoopResult ×
      Option CodingLoop.LoopCheckpoint × σ)) : Option (Option String) :=
  o.map (fun t => t.2.1.map (fun ck => ck.status))

/-- Projection used to observe the success flag of `resume`'s result. -/
def resumeSuccessOf {σ : Type}
    (o : Option (Except String CodingLoop.LoopResult ×
      Option CodingLoop.LoopCheckpoint × σ)) : Option (Option Bool) :=
  o.map (fun t =>
    match t.1 with
    | .ok lr => some lr.success
    | .error _ => none)

/-- Counterexample to claim C6: `resume` on a running checkpoint (iteration
0 of 1) whose remaining iteration fails its tests exits with `success =
false`, yet the persisted checkpoint status is `"running"` — not the
terminal `"failed"` the claim requires (resume writes no final
checkpoint). -/
theorem c6_counterexample :
    resumeStatusOf (CodingLoop.resume envAlwaysFail (some ckRunning0) ()) =
        some (some "running") ∧
      resumeSuccessOf (CodingLoop.resume envAlwaysFail (some ckRunning0) ()) =
        some (some false) ∧
      (("running" : String) ≠ "completed" ∧ ("running" : String) ≠ "failed") := by
  refine ⟨?_, ?_, by decide⟩ <;> rfl

/-- Claim C6 (amended): when `CodingLoop.run` exits normally the persisted
checkpoint status is terminal — `"completed"` if some iteration passed its
tests and `"failed"` otherwise.  When `CodingLoop.resume` exits normally
(with at least one iteration left to run), the persisted status is
`"completed"` if the loop ended with a passing iteration but otherwise
remains `"running"`: resume never writes a terminal `"failed"` status. -/
theorem c6_terminal_status {σ : Type} (env : CodingLoop.LoopEnv σ) :
    (∀ task files N (s : σ) lr ck' s',
      CodingLoop.run env task files N s = (.ok lr, ck', s') →
      ∃ ckv, ck' = some ckv ∧
        ckv.status = (if lr.success then "completed" else "failed") ∧
        (lr.success = true ↔ ∃ r ∈ lr.iterations, r.test_passed = true)) ∧
    (∀ (ck : CodingLoop.LoopCheckpoint) (s : σ) lr ck' s',
      ck.status = "running" → ck.iteration < ck.max_iterations →
      CodingLoop.resume env (some ck) s = some (.ok lr, ck', s') →
      ∃ ckv, ck' = some ckv ∧
        ckv.status = (if lr.success then "completed" else "running")) := by
  constructor
  · intro task files N s lr ck' s' h
    obtain ⟨⟨exc, ck₂, s₂⟩, hgo⟩ :
        ∃ tr, CodingLoop.loopGo env task files N env.detect0 (List.range' 1 N)
          [] "" (some (CodingLoop.mkCk task files 0 N env.detect0 [] "running")) s = tr :=
      ⟨_, rfl⟩
    cases exc with
    | error e => simp [CodingLoop.run, hgo] at h
    | ok res =>
      simp only [CodingLoop.run, hgo, Prod.mk.injEq, Except.ok.injEq] at h
      obtain ⟨h1, h2, _⟩ := h
      obtain ⟨newRes, hres, _, _, hdrop, _⟩ :=
        CodingLoop.loopGo_ok_parts env task files N env.detect0 _ _ _ _ _ _ _ _ hgo
      rw [List.nil_append] at hres
      subst hres
      refine ⟨_, h2.symm, ?_, ?_⟩
      · rw [← h1]
        simp [CodingLoop.mkCk]
      · rw [← h1]
        exact CodingLoop.lastPassed_iff res hdrop
  · intro ck s lr ck' s' hst hlt h
    have hne : ¬ (ck.status ≠ "running") := by simp [hst]
    simp only [CodingLoop.resume, if_neg hne] at h
    obtain ⟨⟨exc, ck₂, s₂⟩, hgo⟩ :
        ∃ tr, CodingLoop.loopGo env ck.task ck.files ck.max_iterations ck.test_command
          (List.range' (ck.iteration + 1) (ck.max_iterations - ck.iteration))
          (ck.iterations.map (CodingLoop.reconstructIter ck.test_command))
          (match (ck.iterations.map (CodingLoop.reconstructIter ck.test_command)).getLast? with
           | some r => r.test_output
           | none => "")
          (some ck) s = tr :=
      ⟨_, rfl⟩
    rw [hgo] at h
    cases exc with
    | error e => simp at h
    | ok res =>
      simp only [Option.some.injEq, Prod.mk.injEq, Except.ok.injEq] at h
      obtain ⟨h1, h2, _⟩ := h
      rcases CodingLoop.loopGo_ok_ck env ck.task ck.files ck.max_iterations
          ck.test_command _ _ _ _ _ _ _ _ hgo with ⟨hnil, _, _⟩ | ⟨_, iL, hck⟩
      · exfalso
        have : (List.range' (ck.iteration + 1) (ck.max_iterations - ck.iteration)).length = 0 := by
          rw [hnil]; rfl
        rw [List.length_range'] at this
        omega
      · refine ⟨_, by rw [← h2, hck], ?_⟩
        rw [← h1]
        simp [CodingLoop.mkCk]

/-- A CREATE block, textually first in the model response. -/
def exCreateBlock : String := "<<<CREATE file=\"b.py\">>>\nB\n<<<END>>>\n"

/-- An EDIT block, textually second in the model response. -/
def exEditBlock : String :=
  "<<<EDIT file=\"a.py\">>>\n<<<OLD>>>\nx = 1\n<<<NEW>>>\nx = 2\n<<<END>>>"

/-- Counterexample to claim C7: in a response where a `<<<CREATE>>>` block
appears strictly before an `<<<EDIT>>>` block, `_parse_edits` returns the
EDIT first — the two regex passes put every EDIT match before every CREATE
match, so parsing is not order-preserving across block kinds, and the edits
are applied in that reordered sequence. -/
theorem c7_counterexample :
    CodingLoop.parseEdits (exCreateBlock ++ exEditBlock) =
      [⟨"a.py", "x = 1", "x = 2", false⟩, ⟨"b.py", "", "B", true⟩] ∧
    (CodingLoop.parseEdits (exCreateBlock ++ exEditBlock)).map Edit.is_create =
      [false, true] := by
  constructor <;> rfl

namespace CodingLoop

/-- The applied-edit records follow the edit list index for index: one
record per edit, with matching file and action. -/
theorem applyEdits_fields : ∀ (edits : List Edit) (fs : Fs),
    ((applyEdits edits fs).1.map (fun a => a.file) =
      edits.map (fun e => e.file_path)) ∧
    ((applyEdits edits fs).1.map (fun a => a.action) =
      edits.map (fun e => if e.is_create then "create" else "edit")) := by
  intro edits
  induction edits with
  | nil => intro fs; simp [applyEdits]
  | cons e rest ih =>
    intro fs
    by_cases hc : e.is_create = true
    · simp [applyEdits, hc, (ih _).1, (ih _).2]
    · cases hg : getFile fs e.file_path with
      | none =>
        simp [applyEdits, hc, hg, (ih _).1, (ih _).2]
      | some content =>
        by_cases hsub : containsSub e.old_content.data content.data = true
        · simp [applyEdits, hc, hg, hsub, (ih _).1, (ih _).2]
        · simp [applyEdits, hc, hg, hsub, (ih _).1, (ih _).2]

end CodingLoop

/-- Claim C7 (amended): `_parse_edits` is order-preserving only within each
block kind — it returns every `<<<EDIT>>>` match (in text order) followed
by every `<<<CREATE>>>` match (in text order), so in the parsed list all
modification edits precede all creations regardless of how the blocks were
interleaved in the response; `_apply_edits` then applies the edits in that
parsed order, one applied-record per edit, index for index. -/
theorem c7_parse_apply_order (response : String) :
    (CodingLoop.parseEdits response =
      CodingLoop.scanAll CodingLoop.matchEditAt response.data.length response.data ++
      CodingLoop.scanAll CodingLoop.matchCreateAt response.data.length response.data) ∧
    (∀ e ∈ CodingLoop.scanAll CodingLoop.matchEditAt response.data.length response.data,
      e.is_create = false) ∧
    (∀ e ∈ CodingLoop.scanAll CodingLoop.matchCreateAt response.data.length response.data,
      e.is_create = true) ∧
    (CodingLoop.parseEdits response =
      (CodingLoop.parseEdits response).filter (fun e => !e.is_create) ++
      (CodingLoop.parseEdits response).filter (fun e => e.is_create)) ∧
    (∀ (edits : List Edit) (fs : Fs),
      ((CodingLoop.applyEdits edits fs).1.map (fun a => a.file) =
        edits.map (fun e => e.file_path)) ∧
      ((CodingLoop.applyEdits edits fs).1.map (fun a => a.action) =
        edits.map (fun e => if e.is_create then "create" else "edit"))) := by
  have hA : ∀ e ∈ CodingLoop.scanAll CodingLoop.matchEditAt
      response.data.length response.data, e.is_create = false :=
    CodingLoop.scanAll_forall _ CodingLoop.matchEditAt_not_create _ _
  have hB : ∀ e ∈ CodingLoop.scanAll CodingLoop.matchCreateAt
      response.data.length response.data, e.is_create = true :=
    CodingLoop.scanAll_forall _ CodingLoop.matchCreateAt_is_create _ _
  refine ⟨rfl, hA, hB, ?_, CodingLoop.applyEdits_fields⟩
  simp only [CodingLoop.parseEdits]
  rw [List.filter_append, List.filter_append]
  rw [List.filter_eq_self.mpr (fun e he => by simp [hA e he])]
  rw [List.filter_eq_nil_iff.mpr (fun e he => by simp [hB e he])]
  rw [List.filter_eq_nil_iff.mpr (fun e he => by simp [hA e he])]
  rw [List.filter_eq_self.mpr (fun e he => by simp [hB e he])]
  simp

/-- Claim C2: applying a (non-create) `Edit` whose target exists and whose
`old_content` occurs in it replaces exactly the first occurrence, leaving
the prefix before it, the suffix after it, and every other file unchanged;
applying a non-create `Edit` whose target does not exist records
`applied = false` with reason `"file not found"`, does not create the file,
and processing continues with the remaining edits against the unchanged
filesystem. -/
theorem c2_edit_application (fs : Fs) (e : Edit) (rest : List Edit)
    (he : e.is_create = false) :
    (∀ (content : String) (pre suf : List Char),
      getFile fs e.file_path = some content →
      content.data = pre ++ e.old_content.data ++ suf →
      (∀ pre' suf', content.data = pre' ++ e.old_content.data ++ suf' →
        pre.length ≤ pre'.length) →
      CodingLoop.applyEdits (e :: rest) fs =
        (⟨e.file_path, "edit", true, none⟩ ::
          (CodingLoop.applyEdits rest
            (setFile fs e.file_path (String.mk (pre ++ e.new_content.data ++ suf)))).1,
         (CodingLoop.applyEdits rest
            (setFile fs e.file_path (String.mk (pre ++ e.new_content.data ++ suf)))).2) ∧
      getFile (setFile fs e.file_path (String.mk (pre ++ e.new_content.data ++ suf)))
          e.file_path = some (String.mk (pre ++ e.new_content.data ++ suf)) ∧
      (∀ q, q ≠ e.file_path →
        getFile (setFile fs e.file_path (String.mk (pre ++ e.new_content.data ++ suf))) q =
          getFile fs q)) ∧
    (getFile fs e.file_path = none →
      CodingLoop.applyEdits (e :: rest) fs =
        (⟨e.file_path, "edit", false, some "file not found"⟩ ::
          (CodingLoop.applyEdits rest fs).1,
         (CodingLoop.applyEdits rest fs).2)) := by
  constructor
  · intro content pre suf hget hsplit hfirst
    have hrepl : replaceFirst e.old_content.data e.new_content.data content.data =
        pre ++ e.new_content.data ++ suf := by
      rw [hsplit]
      exact replaceFirst_first_occ _ _ _ _ (fun pre' suf' hs =>
        hfirst pre' suf' (by rw [hsplit]; exact hs))
    have hsub : containsSub e.old_content.data content.data = true := by
      rw [hsplit]
      exact containsSub_of_split _ _ _
    refine ⟨?_, ?_, ?_⟩
    · simp only [CodingLoop.applyEdits, he, Bool.false_eq_true, if_false, hget,
        hsub, if_true, hrepl]
    · exact getFile_setFile_self fs e.file_path _
    · intro q hq
      exact getFile_setFile_other fs e.file_path q _ hq
  · intro hnone
    simp only [CodingLoop.applyEdits, he, Bool.false_eq_true, if_false, hnone]

/-- Claim C3: immediately after `CacheEngine.set(f, v)`, `CacheEngine.get(f)`
returns `v` (the age is zero, never above the TTL); and for any stored
well-formed entry whose age `now - cached_at` exceeds the TTL, `get`
returns absent and deletes the entry. -/
theorem c3_cache_roundtrip (now ttl : Nat) (st : CacheEngine.CacheState)
    (fp : String) (v : String) :
    ((CacheEngine.get now ttl (CacheEngine.set now st fp v) fp).1 = .ok (some v)) ∧
    (∀ d t, st.responses fp = some (.parsedData d) →
      d.cached_at = some (.ok t) →
      now - t > ttl →
      (CacheEngine.get now ttl st fp).1 = .ok none ∧
      ((CacheEngine.get now ttl st fp).2).responses fp = none) := by
  constructor
  · have hlook : (CacheEngine.set now st fp v).responses fp =
        some (.parsedData ⟨some (.ok now), some v, some (v.length / 4)⟩) :=
      CacheEngine.setEntry_self _ _ _
    simp [CacheEngine.get, hlook, Option.getD]
  · intro d t hlook hts hexp
    have hif : now - t > ttl := hexp
    constructor
    · simp [CacheEngine.get, hlook, hts, Option.getD, if_pos hif]
    · simp [CacheEngine.get, hlook, hts, Option.getD, if_pos hif,
        CacheEngine.removeEntry]

/-- The corrupt record used in the C4 counterexample: its YAML is
malformed, so `yaml.safe_load` raises. -/
def stBadRecord : CacheEngine.CacheState :=
  { responses := fun q => if q = "abc123" then some .malformed else none }

/-- Counterexample to claim C4: reading a cache record whose YAML is
malformed makes `CacheEngine.get` raise (`yaml.safe_load` is not wrapped in
any `try`), rather than treating the corrupt record as a miss. -/
theorem c4_counterexample :
    (CacheEngine.get 0 86400 stBadRecord "abc123").1 =
      .error "yaml.YAMLError from yaml.safe_load" ∧
    (CacheEngine.get 0 86400 stBadRecord "abc123").1 ≠ .ok none ∧
    (Agent.readCache 0 (some .malformed)).1 =
      .error "yaml.YAMLError from yaml.safe_load" := by
  refine ⟨rfl, ?_, rfl⟩
  intro h
  simp [CacheEngine.get, stBadRecord] at h

/-- Claim C4 (amended): `CacheEngine.get` and `Agent._read_cache` treat a
missing record file — and a record that loads as an empty/`None` document —
as a miss without raising; but a record whose YAML is malformed, one that
loads as a non-mapping, or one whose `cached_at` string fails to parse as a
timestamp raises an exception to the caller instead of being treated as a
miss. -/
theorem c4_corrupt_record (now ttl : Nat) (st : CacheEngine.CacheState)
    (fp : String) :
    (st.responses fp = none → (CacheEngine.get now ttl st fp).1 = .ok none) ∧
    (st.responses fp = some .parsedFalsy →
      (CacheEngine.get now ttl st fp).1 = .ok none) ∧
    (st.responses fp = some .malformed →
      ∃ msg, (CacheEngine.get now ttl st fp).1 = .error msg) ∧
    (st.responses fp = some .parsedNonDict →
      ∃ msg, (CacheEngine.get now ttl st fp).1 = .error msg) ∧
    (∀ d, st.responses fp = some (.parsedData d) →
      d.cached_at = some (.error ()) →
      ∃ msg, (CacheEngine.get now ttl st fp).1 = .error msg) ∧
    ((Agent.readCache now none).1 = .ok none) ∧
    ((Agent.readCache now (some .parsedFalsy)).1 = .ok none) ∧
    (∃ msg, (Agent.readCache now (some .malformed)).1 = .error msg) ∧
    (∃ msg, (Agent.readCache now (some .parsedNonDict)).1 = .error msg) ∧
    (∀ d, d.cached_at = some (.error ()) →
      ∃ msg, (Agent.readCache now (some (.parsedData d))).1 = .error msg) := by
  refine ⟨?_, ?_, ?_, ?_, ?_, rfl, rfl, ⟨_, rfl⟩, ⟨_, rfl⟩, ?_⟩
  · intro h; simp [CacheEngine.get, h]
  · intro h; simp [CacheEngine.get, h]
  · intro h
    exact ⟨"yaml.YAMLError from yaml.safe_load", by simp [CacheEngine.get, h]⟩
  · intro h
    exact ⟨"AttributeError: .get on non-mapping", by simp [CacheEngine.get, h]⟩
  · intro d h hts
    exact ⟨"ValueError from datetime.fromisoformat",
      by simp [CacheEngine.get, h, hts, Option.getD]⟩
  · intro d hts
    exact ⟨"ValueError from datetime.fromisoformat",
      by simp [Agent.readCache, hts]⟩

/-- A single fresh, well-formed state record. -/
def sfFresh : StateFile := ⟨"a1b2c3", 0, some 0⟩

/-- Counterexample to claim C9: with `max_count = 0` (no records should
remain), the count pass deletes nothing — `remaining[:-0]` is the empty
slice in Python — so one record survives `cleanup(max_age=30, max_count=0)`
even though the claim requires at most 0 to remain. -/
theorem c9_counterexample :
    (StateEngine.cleanup 0 30 0 [sfFresh]).2 = [sfFresh] ∧
    ¬ ((StateEngine.cleanup 0 30 0 [sfFresh]).2.length ≤ 0) := by
  constructor
  · rfl
  · intro h
    simp [StateEngine.cleanup, StateEngine.ageKeeps, sfFresh] at h

/-- Claim C9 (amended): for every `max_count = C ≥ 1`, after
`cleanup(max_age=A, max_count=C)` no surviving parseable record is older
than `A` whole days and at most `C` records remain.  (For `C = 0` the count
bound is not enforced: the Python slice `remaining[:-0]` is empty and the
count pass deletes nothing.) -/
theorem c9_cleanup_bounds (now A C : Nat) (files : List StateFile)
    (hC : 1 ≤ C) :
    ((StateEngine.cleanup now A C files).2.length ≤ C) ∧
    (∀ f ∈ (StateEngine.cleanup now A C files).2,
      ∀ t, f.updated_at = some t → (now - t) / 86400 ≤ A) := by
  have hmem : ∀ f ∈ files.filter (StateEngine.ageKeeps now A),
      ∀ t, f.updated_at = some t → (now - t) / 86400 ≤ A := by
    intro f hf t ht
    have hkeep := (List.mem_filter.mp hf).2
    rw [StateEngine.ageKeeps, ht] at hkeep
    simpa using hkeep
  have hC0 : ¬ (C = 0) := by omega
  by_cases hgt : (files.filter (StateEngine.ageKeeps now A)).length > C
  · constructor
    · simp only [StateEngine.cleanup, if_pos hgt, if_neg hC0]
      rw [List.length_drop, StateEngine.length_sortByMtime]
      omega
    · intro f hf
      simp only [StateEngine.cleanup, if_pos hgt, if_neg hC0] at hf
      have hf2 : f ∈ StateEngine.sortByMtime (files.filter (StateEngine.ageKeeps now A)) :=
        List.mem_of_mem_drop hf
      exact hmem f (StateEngine.mem_sortByMtime f _ hf2)
  · constructor
    · simp only [StateEngine.cleanup, if_neg hgt]
      omega
    · intro f hf
      simp only [StateEngine.cleanup, if_neg hgt] at hf
      exact hmem f hf

/-- Claim C10: when the cache holds an unexpired entry whose payload is the
empty string, `Agent.run` treats the lookup as a miss: the cache-hit branch
(`if cached:`) is not taken — execution proceeds exactly as after a miss
(`runCore`, which covers the coding-loop and single-completion paths) — and
no continuation ever returns a `TaskResult` with `cached = true`. -/
theorem c10_empty_payload_is_miss {σ : Type} (env : AgentEnv σ) (task : String)
    (w : AgentWorld) (s : σ)
    (hread : Agent.readCache env.now env.cacheRecord = (.ok (some ""), true)) :
    (Agent.run env task w s =
      Agent.runCore env task
        { w with metaHits := w.metaHits + 1,
                 metaTokensSaved := w.metaTokensSaved + 500 } s) ∧
    (∀ (env' : AgentEnv σ) (task' : String) (w' : AgentWorld) (s' : σ)
        (res : TaskResult) wOut sOut,
      Agent.runCore env' task' w' s' = (.ok res, wOut, sOut) →
      res.cached = false) := by
  constructor
  · simp [Agent.run, hread]
  · intro env' task' w' s' res wOut sOut h
    cases hcp : env'.codingPath with
    | true =>
      obtain ⟨⟨exc, ckx, sx⟩, hrun⟩ :
          ∃ tr, CodingLoop.run env'.loopEnv task' env'.files 5 s' = tr := ⟨_, rfl⟩
      cases exc with
      | error e => simp [Agent.runCore, hcp, hrun] at h
      | ok lr =>
        simp only [Agent.runCore, hcp, if_true, hrun, Prod.mk.injEq,
          Except.ok.injEq] at h
        obtain ⟨h1, _, _⟩ := h
        rw [← h1]
    | false =>
      cases hp : env'.provider with
      | success content model tokens =>
        simp only [Agent.runCore, hcp, Bool.false_eq_true, if_false, hp,
          Prod.mk.injEq, Except.ok.injEq] at h
        obtain ⟨h1, _, _⟩ := h
        rw [← h1]
      | interrupt =>
        simp [Agent.runCore, hcp, hp] at h
      | failure msg =>
        simp only [Agent.runCore, hcp, Bool.false_eq_true, if_false, hp,
          Prod.mk.injEq, Except.ok.injEq] at h
        obtain ⟨h1, _, _⟩ := h
        rw [← h1]

/-- Claim C8: with a cache miss, on the single-completion path a provider
failure (class (e)) does not escape `Agent.run`: a `TaskState` with status
`"error"` and the message is persisted and a `TaskResult` with
`completed = false` and the error message is returned; an interruption
(class (f)) propagates, but only after a `"paused"` `TaskState` has been
persisted.  On the coding-loop path, edit-apply conflicts (class (b)) are
per-edit records (`applyEdits` is total), test timeouts and failures
(classes (c), (d)) are failing iteration results (`runTests` is total), so
as long as the provider succeeds each iteration `Agent.run` returns a
`TaskResult` rather than raising. -/
theorem c8_no_raise_policy {σ : Type} (env : AgentEnv σ) (task : String)
    (w : AgentWorld) (s : σ)
    (hmiss : Agent.readCache env.now env.cacheRecord = (.ok none, false)) :
    (∀ msg, env.codingPath = false → env.provider = .failure msg →
      (Agent.run env task w s).1 =
        .ok { output := "", task_id := env.taskId, model := env.modelCfg,
              completed := false, error := some msg } ∧
      (Agent.run env task w s).2.1.stateRec.status = "error" ∧
      (Agent.run env task w s).2.1.stateRec.error = some msg) ∧
    (env.codingPath = false → env.provider = .interrupt →
      (Agent.run env task w s).1 = .error .interrupt ∧
      (Agent.run env task w s).2.1.stateRec.status = "paused") ∧
    (env.codingPath = true →
      (∀ i p s₀, (env.loopEnv.step i p s₀).isSome) →
      ∃ res, (Agent.run env task w s).1 = .ok res) := by
  have hrun : Agent.run env task w s = Agent.runCore env task w s := by
    simp [Agent.run, hmiss]
  refine ⟨?_, ?_, ?_⟩
  · intro msg hcp hp
    rw [hrun]
    refine ⟨?_, ?_, ?_⟩ <;>
      simp [Agent.runCore, hcp, hp]
  · intro hcp hp
    rw [hrun]
    refine ⟨?_, ?_⟩ <;>
      simp [Agent.runCore, hcp, hp]
  · intro hcp hok
    rw [hrun]
    obtain ⟨res, ck₂, s₂, hgo⟩ :=
      CodingLoop.loopGo_isOk env.loopEnv task env.files 5 env.loopEnv.detect0 hok
        (List.range' 1 5) [] ""
        (some (CodingLoop.mkCk task env.files 0 5 env.loopEnv.detect0 [] "running")) s
    have hlr : CodingLoop.run env.loopEnv task env.files 5 s =
        (.ok ⟨task, res, CodingLoop.sumTokens res, CodingLoop.lastPassed res,
          CodingLoop.buildSummary task res env.loopEnv.detect0
            (CodingLoop.lastPassed res)⟩,
         some { CodingLoop.mkCk task env.files res.length 5 env.loopEnv.detect0 res
             (if CodingLoop.lastPassed res then "completed" else "failed") with
           total_tokens := some (CodingLoop.sumTokens res) }, s₂) := by
      simp only [CodingLoop.run, hgo]
    refine ⟨{ output := CodingLoop.buildSummary task res env.loopEnv.detect0
                (CodingLoop.lastPassed res),
              task_id := env.taskId, model := env.modelCfg,
              tokens_used := CodingLoop.sumTokens res,
              completed := CodingLoop.lastPassed res }, ?_⟩
    simp only [Agent.runCore, hcp, if_true, hlr]

/-! ## Witnesses -/

theorem c1_witness :
    (∀ i p s₀, (envAlwaysFail.step i p s₀).isSome) ∧ 1 ≤ 3 ∧
    ((∀ lr ck' s',
        CodingLoop.run envAlwaysFail "fix the bug" ["app.py"] 3 () = (.ok lr, ck', s') →
        lr.iterations.length ≤ 3 ∧
        ∀ r ∈ lr.iterations.dropLast, r.test_passed = false) ∧
      ((∀ i p s₀ out s₁, envAlwaysFail.step i p s₀ = some (out, s₁) →
          out.test_passed = false) →
        ∃ lr ck s',
          CodingLoop.run envAlwaysFail "fix the bug" ["app.py"] 3 () = (.ok lr, some ck, s') ∧
          lr.iterations.length = 3 ∧ ck.status = "failed")) :=
  ⟨fun _ _ _ => rfl, by decide,
    c1_loop_termination envAlwaysFail "fix the bug" ["app.py"] 3 ()
      (fun _ _ _ => rfl) (by decide)⟩

theorem c2_witness :
    CodingLoop.applyEdits [⟨"app.py", "a", "c", false⟩] [("app.py", "ab")] =
      ([⟨"app.py", "edit", true, none⟩], [("app.py", "cb")]) ∧
    CodingLoop.applyEdits [⟨"missing.py", "a", "c", false⟩] [("app.py", "ab")] =
      ([⟨"missing.py", "edit", false, some "file not found"⟩], [("app.py", "ab")]) := by
  have h := c2_edit_application [("app.py", "ab")] ⟨"app.py", "a", "c", false⟩ [] rfl
  constructor
  · have hA := h.1 "ab" [] ['b'] rfl (by decide) (fun _ _ _ => Nat.zero_le _)
    rw [hA.1]
    rfl
  · have h2 := c2_edit_application [("app.py", "ab")] ⟨"missing.py", "a", "c", false⟩ [] rfl
    have hB := h2.2 rfl
    rw [hB]
    rfl

def dExpired : CacheData := ⟨some (.ok 0), some "42", none⟩

def stExpired : CacheEngine.CacheState :=
  { responses := fun q => if q = "abc123" then some (.parsedData dExpired) else none }

theorem c3_witness :
    ((CacheEngine.get 90000 86400
        (CacheEngine.set 90000 stExpired "abc123" "42") "abc123").1 = .ok (some "42")) ∧
    (stExpired.responses "abc123" = some (.parsedData dExpired) ∧
      dExpired.cached_at = some (.ok 0) ∧ 90000 - 0 > 86400 ∧
      (CacheEngine.get 90000 86400 stExpired "abc123").1 = .ok none ∧
      ((CacheEngine.get 90000 86400 stExpired "abc123").2).responses "abc123" = none) := by
  have h := c3_cache_roundtrip 90000 86400 stExpired "abc123" "42"
  have h2 := h.2 dExpired 0 rfl rfl (by decide)
  exact ⟨h.1, rfl, rfl, by decide, h2.1, h2.2⟩

theorem c4_witness :
    (stBadRecord.responses "abc123" = some .malformed) ∧
    (∃ msg, (CacheEngine.get 0 86400 stBadRecord "abc123").1 = .error msg) ∧
    ((CacheEngine.get 0 86400 stBadRecord "nope").1 = .ok none) := by
  have h := c4_corrupt_record 0 86400 stBadRecord "abc123"
  have h2 := c4_corrupt_record 0 86400 stBadRecord "nope"
  exact ⟨rfl, h.2.2.1 rfl, h2.1 (by simp [stBadRecord])⟩

def ckCompleted : CodingLoop.LoopCheckpoint := { ckRunning0 with status := "completed" }

theorem c5_witness :
    (CodingLoop.resume envAlwaysFail none () = none) ∧
    (ckCompleted.status ≠ "running" ∧
      CodingLoop.resume envAlwaysFail (some ckCompleted) () = none) ∧
    (ckRunning0.status = "running" ∧
      ∃ lr ck' s',
        CodingLoop.resume envAlwaysFail (some ckRunning0) () = some (.ok lr, ck', s') ∧
        ∃ newRes,
          lr.iterations =
            ckRunning0.iterations.map
              (CodingLoop.reconstructIter ckRunning0.test_command) ++ newRes ∧
          newRes.map (fun r => r.iteration) =
            List.range' (ckRunning0.iteration + 1) newRes.length) :=
  ⟨(c5_resume_continuity envAlwaysFail).1 (),
    ⟨by decide, (c5_resume_continuity envAlwaysFail).2.1 ckCompleted () (by decide)⟩,
    ⟨rfl, (c5_resume_continuity envAlwaysFail).2.2 ckRunning0 () rfl (fun _ _ _ => rfl)⟩⟩

theorem c6_witness :
    (∃ lr ck' s',
      CodingLoop.run envAlwaysFail "fix the bug" ["app.py"] 1 () = (.ok lr, ck', s') ∧
      ∃ ckv, ck' = some ckv ∧
        ckv.status = (if lr.success then "completed" else "failed") ∧
        (lr.success = true ↔ ∃ r ∈ lr.iterations, r.test_passed = true)) ∧
    (∃ lr ck' s',
      CodingLoop.resume envAlwaysFail (some ckRunning0) () = some (.ok lr, ck', s') ∧
      ∃ ckv, ck' = some ckv ∧
        ckv.status = (if lr.success then "completed" else "running")) := by
  constructor
  · obtain ⟨lr, ck', s', h⟩ :
        ∃ lr ck' s',
          CodingLoop.run envAlwaysFail "fix the bug" ["app.py"] 1 () = (.ok lr, ck', s') :=
      ⟨_, _, _, rfl⟩
    exact ⟨lr, ck', s', h,
      (c6_terminal_status envAlwaysFail).1 "fix the bug" ["app.py"] 1 () lr ck' s' h⟩
  · obtain ⟨lr, ck', s', h⟩ :
        ∃ lr ck' s',
          CodingLoop.resume envAlwaysFail (some ckRunning0) () = some (.ok lr, ck', s') :=
      ⟨_, _, _, rfl⟩
    exact ⟨lr, ck', s', h,
      (c6_terminal_status envAlwaysFail).2 ckRunning0 () lr ck' s' rfl (by decide) h⟩

theorem c7_witness :
    CodingLoop.parseEdits (exCreateBlock ++ exEditBlock) =
      (CodingLoop.parseEdits (exCreateBlock ++ exEditBlock)).filter
        (fun e => !e.is_create) ++
      (CodingLoop.parseEdits (exCreateBlock ++ exEditBlock)).filter
        (fun e => e.is_create) :=
  (c7_parse_apply_order (exCreateBlock ++ exEditBlock)).2.2.2.1

def agentEnvFail : AgentEnv Unit :=
  { taskId := "t1", now := 0, cacheRecord := none, modelCfg := "claude-sonnet-4-5",
    codingPath := false, files := [], loopEnv := envAlwaysFail,
    provider := .failure "connection refused" }

def worldIdle : AgentWorld :=
  { stateRec := {}, conversation := [], cacheWrites := [], history := [] }

theorem c8_witness :
    (Agent.readCache agentEnvFail.now agentEnvFail.cacheRecord = (.ok none, false)) ∧
    ((Agent.run agentEnvFail "explain the cache" worldIdle ()).1 =
      .ok { output := "", task_id := "t1", model := "claude-sonnet-4-5",
            completed := false, error := some "connection refused" } ∧
     (Agent.run agentEnvFail "explain the cache" worldIdle ()).2.1.stateRec.status =
       "error" ∧
     (Agent.run agentEnvFail "explain the cache" worldIdle ()).2.1.stateRec.error =
       some "connection refused") :=
  ⟨rfl, (c8_no_raise_policy agentEnvFail "explain the cache" worldIdle () rfl).1
    "connection refused" rfl rfl⟩

theorem c9_witness :
    1 ≤ 1 ∧
    ((StateEngine.cleanup 0 30 1 [sfFresh]).2.length ≤ 1 ∧
      ∀ f ∈ (StateEngine.cleanup 0 30 1 [sfFresh]).2,
        ∀ t, f.updated_at = some t → (0 - t) / 86400 ≤ 30) :=
  ⟨le_refl 1, c9_cleanup_bounds 0 30 1 [sfFresh] (le_refl 1)⟩

def agentEnvEmptyCache : AgentEnv Unit :=
  { agentEnvFail with cacheRecord := some (.parsedData ⟨some (.ok 0), some "", none⟩) }

theorem c10_witness :
    (Agent.readCache agentEnvEmptyCache.now agentEnvEmptyCache.cacheRecord =
      (.ok (some ""), true)) ∧
    (Agent.run agentEnvEmptyCache "fix the bug" worldIdle () =
      Agent.runCore agentEnvEmptyCache "fix the bug"
        { worldIdle with metaHits := worldIdle.metaHits + 1,
                         metaTokensSaved := worldIdle.metaTokensSaved + 500 } ()) :=
  ⟨rfl, (c10_empty_payload_is_miss agentEnvEmptyCache "fix the bug" worldIdle () rfl).1⟩

end GeekCode
